import Mathlib

/-!
Verification of enstaller (egg package manager) against its specification.

The definitions below are shallow embeddings of the Python source files:
  * `enstaller/indexed_repo/dist_naming.py`  (egg filename regex)
  * `enstaller/enpkg.py`                     (store creation, plans, executor)
  * `enstaller/main.py`                      (revert)
  * `enstaller/indexed_repo/metadata.py`     (parse_data)
  * `enstaller/proxy/util.py`                (proxy setup)
Strings are modelled as `List Char` (Python `str` is a byte/char sequence;
all inputs of interest are ASCII).
-/

namespace Enstaller

/-! ### dist_naming.py: egg filename regex

`egg_pat = re.compile(r'([^-]+)-([^-]+)-(\d+).egg$')`, used with `re.match`
(anchored at the start; `$` matches at the end of the string or just before
a trailing newline).  The groups `[^-]+` cannot contain `-`, so each of the
first two groups necessarily extends to the next hyphen; the final part
`(\d+).egg$` fixes the digit-group length to `length - 4` of the remaining
text (after stripping one trailing newline that `$` may skip), since `.`
consumes exactly one character (any character except `'\n'`).
-/

/-- The part of the regex after the second hyphen: `(\d+).egg$`.
Returns the digit group on success.  Faithful to Python `re` semantics:
`$` also matches just before a single trailing newline, and `.` matches
exactly one character other than a newline, which pins the digit group to
the first `length - 4` characters. -/
def eggTail (r : List Char) : Option (List Char) :=
  let r' := if r.getLast? = some '\n' then r.dropLast else r
  if r'.length < 5 then none
  else if (r'.take (r'.length - 4)).all (fun c => c.isDigit)
      && (r'.drop (r'.length - 4)).head? != some '\n'
      && (r'.drop (r'.length - 4)).tail = ['e', 'g', 'g'] then
    some (r'.take (r'.length - 4))
  else none

/-- Full match of `egg_pat` against a string, returning the three groups
(name characters, version characters, build digit characters).  Each
`[^-]+` group necessarily extends to the next hyphen, so the character
right after each group must be a hyphen. -/
def eggMatch (cs : List Char) : Option (List Char × List Char × List Char) :=
  let n := cs.takeWhile (fun c => c ≠ '-')
  let rest1 := cs.drop n.length
  if n.isEmpty || rest1.head? != some '-' then none
  else
    let v := rest1.tail.takeWhile (fun c => c ≠ '-')
    let rest2 := rest1.tail.drop v.length
    if v.isEmpty || rest2.head? != some '-' then none
    else (eggTail rest2.tail).map (fun b => (n, v, b))

/-- Python `is_valid_eggname(eggname)`: whether `egg_pat.match` succeeds. -/
def is_valid_eggname (cs : List Char) : Bool :=
  (eggMatch cs).isSome

/-- Python `int()` of a digit string. -/
def intOfDigits (b : List Char) : Nat :=
  b.foldl (fun a c => a * 10 + (c.toNat - 48)) 0

/-- Python `split_eggname(eggname)`: the triple `(m.group(1), m.group(2),
int(m.group(3)))`; `none` models the failing `assert`. -/
def split_eggname (cs : List Char) : Option (List Char × List Char × Nat) :=
  (eggMatch cs).map (fun g => (g.1, g.2.1, intOfDigits g.2.2))

/-- The character for a decimal digit. -/
def digitChar (d : Nat) : Char :=
  match d with
  | 0 => '0' | 1 => '1' | 2 => '2' | 3 => '3' | 4 => '4'
  | 5 => '5' | 6 => '6' | 7 => '7' | 8 => '8' | _ => '9'

/-- Fuel-driven accumulator loop rendering a natural number in decimal. -/
def natToCharsAux : Nat → Nat → List Char → List Char
  | 0, _, acc => acc
  | fuel + 1, n, acc =>
    if n < 10 then digitChar (n % 10) :: acc
    else natToCharsAux fuel (n / 10) (digitChar (n % 10) :: acc)

/-- Decimal digit characters of a natural number, as Python `'%d' % n`
renders it (no leading zeros; `0` renders as `"0"`). -/
def natToChars (n : Nat) : List Char :=
  natToCharsAux (n + 1) n []

/-- Re-format a split egg name as `'<name>-<version>-<build>.egg'`. -/
def format_egg (n v : List Char) (b : Nat) : List Char :=
  n ++ '-' :: v ++ '-' :: natToChars b ++ ['.', 'e', 'g', 'g']

/-- Round trip `format(split_eggname(e))` of the spec's §8 invariant. -/
def roundtrip (cs : List Char) : Option (List Char) :=
  (split_eggname cs).map (fun g => format_egg g.1 g.2.1 g.2.2)

/-! ### Lemmas about decimal rendering and the egg-name regex -/

/-- Reference decimal rendering, by well-founded recursion on the number. -/
def natRep (n : Nat) : List Char :=
  if n < 10 then [digitChar (n % 10)]
  else natRep (n / 10) ++ [digitChar (n % 10)]
termination_by n
decreasing_by exact Nat.div_lt_self (by omega) (by omega)

theorem natToCharsAux_eq (fuel : Nat) : ∀ (n : Nat) (acc : List Char), n < fuel →
    natToCharsAux fuel n acc = natRep n ++ acc := by
  induction fuel with
  | zero => intro n acc h; omega
  | succ f ih =>
    intro n acc h
    rw [natToCharsAux, natRep]
    by_cases h10 : n < 10
    · simp [h10]
    · rw [if_neg h10, if_neg h10,
        ih (n / 10) _ (by have := Nat.div_lt_self (show 0 < n by omega) (show 1 < 10 by omega); omega)]
      simp

theorem natToChars_eq (n : Nat) : natToChars n = natRep n := by
  rw [natToChars, natToCharsAux_eq (n + 1) n [] (Nat.lt_succ_self n), List.append_nil]

theorem digitChar_isDigit (d : Nat) : (digitChar d).isDigit = true := by
  rcases d with _|_|_|_|_|_|_|_|_|d <;> rfl

theorem digitChar_val (d : Nat) (h : d < 10) : (digitChar d).toNat - 48 = d := by
  interval_cases d <;> rfl

theorem foldl_natRep (n : Nat) : ∀ a : Nat,
    List.foldl (fun a c => a * 10 + (c.toNat - 48)) a (natRep n) =
      a * 10 ^ (natRep n).length + n := by
  induction n using Nat.strong_induction_on with
  | _ n ih =>
    intro a
    rw [natRep]
    by_cases h10 : n < 10
    · rw [if_pos h10, Nat.mod_eq_of_lt h10]
      simp [digitChar_val n h10]
    · rw [if_neg h10, List.foldl_append,
        ih (n / 10) (Nat.div_lt_self (by omega) (by omega))]
      simp only [List.foldl, List.length_append, List.length_singleton,
        digitChar_val (n % 10) (by omega)]
      rw [pow_succ]
      have hdm : 10 * (n / 10) + n % 10 = n := Nat.div_add_mod n 10
      ring_nf
      omega

theorem intOfDigits_natToChars (n : Nat) : intOfDigits (natToChars n) = n := by
  rw [natToChars_eq, intOfDigits, foldl_natRep]
  simp

theorem natRep_ne_nil (n : Nat) : natRep n ≠ [] := by
  rw [natRep]
  by_cases h10 : n < 10 <;> simp [h10]

theorem natRep_all_digit (n : Nat) : (natRep n).all (fun c => c.isDigit) = true := by
  induction n using Nat.strong_induction_on with
  | _ n ih =>
    rw [natRep]
    by_cases h10 : n < 10
    · simp [h10, digitChar_isDigit]
    · rw [if_neg h10]
      simp [List.all_append, ih (n / 10) (Nat.div_lt_self (by omega) (by omega)),
        digitChar_isDigit]

theorem takeWhile_append_cons {p : Char → Bool} (n : List Char) (x : Char) (r : List Char)
    (hn : ∀ c ∈ n, p c = true) (hx : p x = false) :
    (n ++ x :: r).takeWhile p = n := by
  induction n with
  | nil => simp [List.takeWhile_cons, hx]
  | cons a t ih =>
    simp only [List.cons_append, List.takeWhile_cons, hn a (by simp)]
    rw [ih (fun c hc => hn c (by simp [hc]))]
    simp

theorem eggTail_digits (ds : List Char) (h1 : ds ≠ [])
    (h2 : ds.all (fun c => c.isDigit) = true) :
    eggTail (ds ++ ['.', 'e', 'g', 'g']) = some ds := by
  have hlast : (ds ++ ['.', 'e', 'g', 'g']).getLast? = some 'g' := by
    rw [List.getLast?_append_of_ne_nil _ (by simp)]; rfl
  have hlen : 1 ≤ ds.length := List.length_pos.mpr h1
  have hif : (if (ds ++ ['.', 'e', 'g', 'g']).getLast? = some '\n'
      then (ds ++ ['.', 'e', 'g', 'g']).dropLast else ds ++ ['.', 'e', 'g', 'g'])
      = ds ++ ['.', 'e', 'g', 'g'] := by
    rw [hlast]; simp
  have h4 : (ds ++ ['.', 'e', 'g', 'g']).length - 4 = ds.length := by simp
  simp only [eggTail]
  rw [hif, h4, List.take_left, List.drop_left,
    if_neg (show ¬(ds ++ ['.', 'e', 'g', 'g']).length < 5 by simp; omega)]
  simp [h2]

theorem eggMatch_format (n v ds : List Char) (hn : n ≠ []) (hv : v ≠ [])
    (hn' : ∀ c ∈ n, c ≠ '-') (hv' : ∀ c ∈ v, c ≠ '-')
    (hds1 : ds ≠ []) (hds2 : ds.all (fun c => c.isDigit) = true) :
    eggMatch (n ++ '-' :: (v ++ '-' :: (ds ++ ['.', 'e', 'g', 'g']))) = some (n, v, ds) := by
  have htw1 : (n ++ '-' :: (v ++ '-' :: (ds ++ ['.', 'e', 'g', 'g']))).takeWhile
      (fun c => decide (c ≠ '-')) = n :=
    takeWhile_append_cons n '-' _ (fun c hc => decide_eq_true (hn' c hc)) (by simp)
  have htw2 : (v ++ '-' :: (ds ++ ['.', 'e', 'g', 'g'])).takeWhile
      (fun c => decide (c ≠ '-')) = v :=
    takeWhile_append_cons v '-' _ (fun c hc => decide_eq_true (hv' c hc)) (by simp)
  simp only [eggMatch]
  rw [htw1, List.drop_left]
  rw [if_neg (by simp [List.isEmpty_iff, hn])]
  simp only [List.tail_cons]
  rw [htw2, List.drop_left]
  rw [if_neg (by simp [List.isEmpty_iff, hv])]
  simp only [List.tail_cons]
  rw [eggTail_digits ds hds1 hds2]
  rfl

theorem eggMatch_groups (cs n v b : List Char) (h : eggMatch cs = some (n, v, b)) :
    n ≠ [] ∧ '-' ∉ n ∧ v ≠ [] ∧ '-' ∉ v := by
  simp only [eggMatch] at h
  by_cases h1 : ((cs.takeWhile (fun c => decide (c ≠ '-'))).isEmpty
      || (cs.drop (cs.takeWhile (fun c => decide (c ≠ '-'))).length).head? != some '-') = true
  · rw [if_pos h1] at h; exact absurd h (by simp)
  rw [if_neg h1] at h
  by_cases h2 : (((cs.drop
        (cs.takeWhile (fun c => decide (c ≠ '-'))).length).tail.takeWhile
          (fun c => decide (c ≠ '-'))).isEmpty
      || ((cs.drop (cs.takeWhile (fun c => decide (c ≠ '-'))).length).tail.drop
          ((cs.drop (cs.takeWhile (fun c => decide (c ≠ '-'))).length).tail.takeWhile
            (fun c => decide (c ≠ '-'))).length).head? != some '-') = true
  · rw [if_pos h2] at h; exact absurd h (by simp)
  rw [if_neg h2] at h
  rw [Option.map_eq_some'] at h
  obtain ⟨b', hb', heq⟩ := h
  simp only [Prod.mk.injEq] at heq
  obtain ⟨e1, e2, -⟩ := heq
  simp only [Bool.or_eq_true, not_or] at h1 h2
  refine ⟨?_, fun hm => ?_, ?_, fun hm => ?_⟩
  · rw [← e1]
    simpa [List.isEmpty_iff] using h1.1
  · rw [← e1] at hm
    have := List.mem_takeWhile_imp hm; simp at this
  · rw [← e2]
    simpa [List.isEmpty_iff] using h2.1
  · rw [← e2] at hm
    have := List.mem_takeWhile_imp hm; simp at this

/-! ### Claim C2 -/

/-- Claim C2, counterexample: the regex `([^-]+)-([^-]+)-(\d+).egg$` has an
unescaped dot, so `is_valid_eggname` accepts the string `a-b-01egg` (the
`.` consumes the `1` and the digit group is just `0`), but re-formatting
the triple returned by `split_eggname` yields `a-b-0.egg`, not the
original string.  Hence the round trip fails on a valid egg name. -/
theorem C2_roundtrip_counterexample :
    is_valid_eggname "a-b-01egg".data = true ∧
    split_eggname "a-b-01egg".data = some ("a".data, "b".data, 0) ∧
    roundtrip "a-b-01egg".data = some "a-b-0.egg".data ∧
    roundtrip "a-b-01egg".data ≠ some "a-b-01egg".data := by
  refine ⟨by decide, by decide, by decide, by decide⟩

/-- Claim C2, amended: `split_eggname` always returns a hyphen-free
non-empty name and version and a natural-number build, and the round trip
`format(split_eggname(e)) = e` holds for every filename in canonical form
`<name>-<version>-<build>.egg` (hyphen-free non-empty name and version,
build rendered in decimal without leading zeros); the regex in addition
accepts near-canonical strings (any non-newline byte in place of the dot,
builds with leading zeros, a trailing newline) on which the round trip
fails. -/
theorem C2_split_roundtrip :
    (∀ cs n v b, split_eggname cs = some (n, v, b) →
      n ≠ [] ∧ '-' ∉ n ∧ v ≠ [] ∧ '-' ∉ v) ∧
    (∀ n v b, n ≠ [] → v ≠ [] → '-' ∉ n → '-' ∉ v →
      is_valid_eggname (format_egg n v b) = true ∧
      split_eggname (format_egg n v b) = some (n, v, b) ∧
      roundtrip (format_egg n v b) = some (format_egg n v b)) := by
  constructor
  · intro cs n v b h
    rw [split_eggname, Option.map_eq_some'] at h
    obtain ⟨⟨n', v', b'⟩, hm, heq⟩ := h
    simp only [Prod.mk.injEq] at heq
    obtain ⟨rfl, rfl, -⟩ := heq
    exact eggMatch_groups cs n' v' b' hm
  · intro n v b hn hv hn' hv'
    have hfe : format_egg n v b
        = n ++ '-' :: (v ++ '-' :: (natToChars b ++ ['.', 'e', 'g', 'g'])) := by
      simp [format_egg, List.append_assoc]
    have hm := eggMatch_format n v (natToChars b) hn hv
      (fun c hc he => hn' (he ▸ hc)) (fun c hc he => hv' (he ▸ hc))
      (by rw [natToChars_eq]; exact natRep_ne_nil b)
      (by rw [natToChars_eq]; exact natRep_all_digit b)
    refine ⟨?_, ?_, ?_⟩
    · rw [is_valid_eggname, hfe, hm]; rfl
    · rw [split_eggname, hfe, hm, Option.map_some', intOfDigits_natToChars]
    · rw [roundtrip, split_eggname, hfe, hm, Option.map_some', Option.map_some',
        intOfDigits_natToChars, ← hfe]

/-- Witness for C2: the canonical name `foo-1.0.0-1.egg` round-trips. -/
theorem C2_split_roundtrip_witness :
    is_valid_eggname (format_egg "foo".data "1.0.0".data 1) = true ∧
    split_eggname (format_egg "foo".data "1.0.0".data 1)
      = some ("foo".data, "1.0.0".data, 1) ∧
    roundtrip (format_egg "foo".data "1.0.0".data 1)
      = some (format_egg "foo".data "1.0.0".data 1) :=
  C2_split_roundtrip.2 "foo".data "1.0.0".data 1
    (by decide) (by decide) (by decide) (by decide)

/-! ### enpkg.py: Enpkg.install_actions (lines 226-263)

The method resolves `eggs = resolver.install_sequence(req, mode)` (the
resolver lives in resolve.py, outside the verified sources; its output,
the resolver sequence, is taken here as an input list), filters out
already-installed eggs according to the force flags, and then appends
fetch, remove and install tuples.  `self.find` is
`JoinedEggCollection.find` from eggcollect.py, also outside the verified
sources; it is kept as an opaque boolean parameter (`find e = true`
models Python's `self.find(e) is not None`).
-/

/-- Action labels of a plan tuple. -/
inductive Act
  | fetch
  | remove
  | install
deriving DecidableEq

/-- Python `rm = lambda eggs: [e for e in eggs if self.find(e) is None]`. -/
def rmInstalled (find : String → Bool) (eggs : List String) : List String :=
  eggs.filter (fun e => !find e)

/-- The egg list after the `forceall`/`force` filtering step of
`install_actions`.  For `force`, Python evaluates
`rm(eggs[:-1]) + [eggs[-1]]`; `eggs.drop (eggs.length - 1)` is
`[eggs[-1]]` for non-empty `eggs` (on `[]` Python would raise
`IndexError`, but `install_sequence` always returns at least the
requested egg). -/
def planEggs (find : String → Bool) (force forceall : Bool)
    (eggs : List String) : List String :=
  if forceall then eggs
  else if force then
    rmInstalled find eggs.dropLast ++ eggs.drop (eggs.length - 1)
  else rmInstalled find eggs

/-- Embedding of `Enpkg.install_actions`: fetch tuples for the kept eggs,
then (in plain, non-hook mode) remove tuples in reverse order for each
kept egg that `find` reports installed, then install tuples. -/
def install_actions (hook : Bool) (find : String → Bool) (force forceall : Bool)
    (eggs : List String) : List (Act × String) :=
  let kept := planEggs find force forceall eggs
  kept.map (fun e => (Act.fetch, e))
    ++ (if hook then []
        else (kept.reverse.filter (fun e => find e)).map (fun e => (Act.remove, e)))
    ++ kept.map (fun e => (Act.install, e))

/-- The kept eggs are a sublist (subsequence in order) of the resolver
sequence. -/
theorem planEggs_sublist (find : String → Bool) (force forceall : Bool)
    (eggs : List String) : (planEggs find force forceall eggs).Sublist eggs := by
  rw [planEggs]
  by_cases hall : forceall
  · simp [hall]
  rw [if_neg hall]
  by_cases hf : force
  · rw [if_pos hf]
    have := List.take_append_drop (eggs.length - 1) eggs
    have h1 : (rmInstalled find eggs.dropLast ++ eggs.drop (eggs.length - 1)).Sublist
        (eggs.dropLast ++ eggs.drop (eggs.length - 1)) :=
      List.Sublist.append (List.filter_sublist _) (List.Sublist.refl _)
    have h2 : eggs.dropLast ++ eggs.drop (eggs.length - 1) = eggs := by
      rw [List.dropLast_eq_take, List.take_append_drop]
    rw [h2] at h1
    exact h1
  · rw [if_neg hf]
    exact List.filter_sublist _

/-- Every plan tuple names a kept egg, and a remove tuple occurs only in
plain mode on a kept egg that `find` reports installed. -/
theorem mem_install_actions (hook : Bool) (find : String → Bool)
    (force forceall : Bool) (eggs : List String) (p : Act × String)
    (h : p ∈ install_actions hook find force forceall eggs) :
    p.2 ∈ planEggs find force forceall eggs ∧
      (p.1 = Act.remove → hook = false ∧ find p.2 = true) := by
  simp only [install_actions, List.mem_append, List.mem_map] at h
  rcases h with (⟨e, he, rfl⟩ | h) | ⟨e, he, rfl⟩
  · exact ⟨he, fun hr => by cases hr⟩
  · by_cases hk : hook
    · simp [hk] at h
    · rw [if_neg hk] at h
      simp only [List.mem_map, List.mem_filter, List.mem_reverse] at h
      obtain ⟨e, ⟨he, hfe⟩, rfl⟩ := h
      exact ⟨he, fun _ => ⟨by simp [hk], hfe⟩⟩
  · exact ⟨he, fun hr => by cases hr⟩

/-- Rank of an action inside a plan: fetches come first, then removes,
then installs. -/
def actRank : Act → Nat
  | .fetch => 0
  | .remove => 1
  | .install => 2

theorem pairwiseOfForall {α : Type} {R : α → α → Prop} (h : ∀ a b, R a b) :
    ∀ l : List α, l.Pairwise R
  | [] => .nil
  | a :: t => .cons (fun b _ => h a b) (pairwiseOfForall h t)

theorem filter_fst_map (a b : Act) (l : List String) :
    (((l.map (fun e => (a, e))).filter (fun p => p.1 == b)).map Prod.snd)
      = if a = b then l else [] := by
  induction l with
  | nil => simp
  | cons x t ih =>
    by_cases hab : a = b
    · subst hab
      simpa [List.filter_cons] using ih
    · simp only [List.map_cons, List.filter_cons]
      simp only [show ((a, x).1 == b) = false by simp [hab], Bool.false_eq_true,
        if_false]
      rw [ih]
      simp [hab]

/-! ### Claim C4 -/

/-- Claim C4: in every plan produced by `install_actions`, action ranks
are non-decreasing (all fetch tuples precede all remove tuples, which
precede all install tuples); the install and fetch tuples list the kept
eggs in resolver order (a sublist of the resolver sequence), and the
remove tuples are in reverse resolver order (their reverse is a sublist
of the resolver sequence). -/
theorem C4_plan_ordering (hook : Bool) (find : String → Bool)
    (force forceall : Bool) (eggs : List String) :
    ((install_actions hook find force forceall eggs).Pairwise
      (fun p q => actRank p.1 ≤ actRank q.1)) ∧
    ((((install_actions hook find force forceall eggs).filter
        (fun p => p.1 == Act.install)).map Prod.snd).Sublist eggs) ∧
    (((((install_actions hook find force forceall eggs).filter
        (fun p => p.1 == Act.remove)).map Prod.snd).reverse).Sublist eggs) ∧
    ((((install_actions hook find force forceall eggs).filter
        (fun p => p.1 == Act.fetch)).map Prod.snd).Sublist eggs) := by
  have hsub := planEggs_sublist find force forceall eggs
  have hplan : install_actions hook find force forceall eggs
      = (planEggs find force forceall eggs).map (fun e => (Act.fetch, e))
        ++ (if hook then []
            else ((planEggs find force forceall eggs).reverse.filter
              (fun e => find e)).map (fun e => (Act.remove, e)))
        ++ (planEggs find force forceall eggs).map (fun e => (Act.install, e)) := by
    rfl
  have hB : (if hook then []
      else ((planEggs find force forceall eggs).reverse.filter
        (fun e => find e)).map (fun e => (Act.remove, e)))
      = ((if hook then []
          else (planEggs find force forceall eggs).reverse.filter
            (fun e => find e))).map (fun e => (Act.remove, e)) := by
    by_cases hk : hook <;> simp [hk]
  have hfil : ∀ b : Act,
      (((install_actions hook find force forceall eggs).filter
        (fun p => p.1 == b)).map Prod.snd)
      = (if Act.fetch = b then planEggs find force forceall eggs else [])
        ++ (if Act.remove = b then
              (if hook then []
                else (planEggs find force forceall eggs).reverse.filter
                  (fun e => find e)) else [])
        ++ (if Act.install = b then planEggs find force forceall eggs else []) := by
    intro b
    rw [hplan, hB, List.filter_append, List.filter_append, List.map_append,
      List.map_append, filter_fst_map, filter_fst_map, filter_fst_map]
  refine ⟨?_, ?_, ?_, ?_⟩
  · rw [hplan, hB, List.pairwise_append]
    refine ⟨?_, ?_, ?_⟩
    · rw [List.pairwise_append]
      refine ⟨?_, ?_, ?_⟩
      · rw [List.pairwise_map]
        exact pairwiseOfForall (fun a b => by simp [actRank]) _
      · rw [List.pairwise_map]
        exact pairwiseOfForall (fun a b => by simp [actRank]) _
      · intro p hp q hq
        simp only [List.mem_map] at hp
        obtain ⟨e, -, rfl⟩ := hp
        exact Nat.zero_le _
    · rw [List.pairwise_map]
      exact pairwiseOfForall (fun a b => by simp [actRank]) _
    · intro p hp q hq
      simp only [List.mem_map] at hq
      obtain ⟨f, -, rfl⟩ := hq
      rcases List.mem_append.1 hp with hpA | hpB
      · simp only [List.mem_map] at hpA
        obtain ⟨e, -, rfl⟩ := hpA
        exact Nat.zero_le _
      · by_cases hk : hook
        · rw [if_pos hk] at hpB
          exact absurd hpB (List.not_mem_nil p)
        · rw [if_neg hk] at hpB
          simp only [List.mem_map] at hpB
          obtain ⟨e, -, rfl⟩ := hpB
          simp [actRank]
  · have h2 : (((install_actions hook find force forceall eggs).filter
        (fun p => p.1 == Act.install)).map Prod.snd)
        = planEggs find force forceall eggs := by
      rw [hfil]; simp
    rw [h2]; exact hsub
  · have h3 : (((install_actions hook find force forceall eggs).filter
        (fun p => p.1 == Act.remove)).map Prod.snd)
        = (if hook then []
            else (planEggs find force forceall eggs).reverse.filter
              (fun e => find e)) := by
      rw [hfil]; simp
    rw [h3]
    by_cases hk : hook
    · simp [hk]
    · rw [if_neg hk]
      have h4 : ((planEggs find force forceall eggs).reverse.filter
            (fun e => find e)).reverse.Sublist
          ((planEggs find force forceall eggs).reverse.reverse) :=
        (List.filter_sublist _).reverse
      rw [List.reverse_reverse] at h4
      exact h4.trans hsub
  · have h5 : (((install_actions hook find force forceall eggs).filter
        (fun p => p.1 == Act.fetch)).map Prod.snd)
        = planEggs find force forceall eggs := by
      rw [hfil]; simp
    rw [h5]; exact hsub

/-! ### Claim C3 -/

/-- Claim C3: with `forceall` every resolver egg stays in the plan
(fetch and install tuples appear for it, installed or not); with neither
flag every egg that `find` reports installed is dropped from the plan
entirely; with `force` alone, installed dependencies are dropped but the
last resolver egg (the requested leaf) is always fetched and installed. -/
theorem C3_force_semantics (hook : Bool) (find : String → Bool)
    (eggs : List String) :
    (∀ (force : Bool) (e : String), e ∈ eggs →
      (Act.fetch, e) ∈ install_actions hook find force true eggs ∧
      (Act.install, e) ∈ install_actions hook find force true eggs) ∧
    (∀ (a : Act) (e : String), find e = true →
      (a, e) ∉ install_actions hook find false false eggs) ∧
    (∀ h : eggs ≠ [],
      (Act.fetch, eggs.getLast h) ∈ install_actions hook find true false eggs ∧
      (Act.install, eggs.getLast h) ∈ install_actions hook find true false eggs ∧
      ∀ (a : Act) (e : String), find e = true → e ≠ eggs.getLast h →
        (a, e) ∉ install_actions hook find true false eggs) := by
  refine ⟨?_, ?_, ?_⟩
  · intro force e he
    have hk : planEggs find force true eggs = eggs := by simp [planEggs]
    constructor
    · exact List.mem_append_left _ (List.mem_append_left _
        (by rw [hk] at *; exact List.mem_map_of_mem _ he))
    · exact List.mem_append_right _ (by rw [hk] at *; exact List.mem_map_of_mem _ he)
  · intro a e hfe hmem
    have h := (mem_install_actions hook find false false eggs (a, e) hmem).1
    have hk : planEggs find false false eggs = eggs.filter (fun e => !find e) := by
      simp [planEggs, rmInstalled]
    rw [hk] at h
    have := (List.mem_filter.1 h).2
    rw [hfe] at this
    simp at this
  · intro h
    have hk : planEggs find true false eggs
        = rmInstalled find eggs.dropLast ++ eggs.drop (eggs.length - 1) := by
      simp [planEggs]
    have hdrop : eggs.drop (eggs.length - 1) = [eggs.getLast h] := by
      have h5 : (eggs.dropLast ++ [eggs.getLast h]).drop eggs.dropLast.length
          = [eggs.getLast h] := List.drop_left _ _
      rw [List.dropLast_append_getLast h] at h5
      rw [List.length_dropLast] at h5
      exact h5
    have hlast : eggs.getLast h ∈ planEggs find true false eggs := by
      rw [hk, hdrop]
      exact List.mem_append_right _ (by simp)
    refine ⟨List.mem_append_left _ (List.mem_append_left _
        (List.mem_map_of_mem _ hlast)),
      List.mem_append_right _ (List.mem_map_of_mem _ hlast), ?_⟩
    intro a e hfe hne hmem
    have hmem2 := (mem_install_actions hook find true false eggs (a, e) hmem).1
    rw [hk, hdrop] at hmem2
    rcases List.mem_append.1 hmem2 with h6 | h6
    · have := (List.mem_filter.1 h6).2
      rw [hfe] at this
      simp at this
    · exact hne (by simpa using h6)

/-- Witness for C3 at a concrete two-egg resolver sequence with the
dependency already installed. -/
theorem C3_force_semantics_witness :
    (Act.fetch, "a-1.0-1.egg") ∈ install_actions false
      (fun e => e == "a-1.0-1.egg") false true ["a-1.0-1.egg", "b-1.0-1.egg"] ∧
    (Act.fetch, "a-1.0-1.egg") ∉ install_actions false
      (fun e => e == "a-1.0-1.egg") false false ["a-1.0-1.egg", "b-1.0-1.egg"] ∧
    (Act.fetch, "b-1.0-1.egg") ∈ install_actions false
      (fun e => e == "a-1.0-1.egg") true false ["a-1.0-1.egg", "b-1.0-1.egg"] := by
  have h := C3_force_semantics false (fun e => e == "a-1.0-1.egg")
    ["a-1.0-1.egg", "b-1.0-1.egg"]
  refine ⟨(h.1 false "a-1.0-1.egg" (by simp)).1,
    h.2.1 Act.fetch "a-1.0-1.egg" (by decide), ?_⟩
  have h3 := (h.2.2 (by simp)).1
  simpa using h3

/-! ### Claim C1 -/

/-- Claim C1, counterexample: in the upgrade scenario (resolver picks
`foo-1.1.0-1.egg`, `foo-1.0.0-1.egg` installed, plain mode, no force
flags) the plan never contains `('remove', 'foo-1.0.0-1.egg')`: the
remove loop iterates over the filtered resolver sequence itself, which
does not contain the old filename.  Under a name-based `find` (an egg
named foo is reported installed) the new egg is filtered out and the
plan is empty; under an exact-key `find` the plan is fetch-then-install
with no remove tuple.  Either way it differs from the claimed
`[fetch 1.1.0, remove 1.0.0, install 1.1.0]`. -/
theorem C1_upgrade_counterexample :
    install_actions false (fun e => e == "foo-1.0.0-1.egg" || e == "foo-1.1.0-1.egg")
        false false ["foo-1.1.0-1.egg"] = [] ∧
    install_actions false (fun e => e == "foo-1.0.0-1.egg")
        false false ["foo-1.1.0-1.egg"]
      = [(Act.fetch, "foo-1.1.0-1.egg"), (Act.install, "foo-1.1.0-1.egg")] ∧
    (Act.remove, "foo-1.0.0-1.egg") ∉
      install_actions false (fun e => e == "foo-1.0.0-1.egg")
        false false ["foo-1.1.0-1.egg"] ∧
    (Act.remove, "foo-1.0.0-1.egg") ∉
      install_actions false (fun e => e == "foo-1.0.0-1.egg" || e == "foo-1.1.0-1.egg")
        false false ["foo-1.1.0-1.egg"] := by
  refine ⟨by decide, by decide, by decide, by decide⟩

/-- Claim C1, amended: every tuple of a plan names an egg of the resolver
sequence itself, and a remove tuple occurs only in plain mode, for a kept
egg that `find` reports installed (so the remove tuples are the kept
installed eggs in reverse order, between the fetch and install tuples,
and a remove of an egg outside the resolver sequence, such as the
previously installed `foo-1.0.0-1.egg`, is impossible). -/
theorem C1_remove_tuples (hook : Bool) (find : String → Bool)
    (force forceall : Bool) (eggs : List String) (p : Act × String)
    (hp : p ∈ install_actions hook find force forceall eggs) :
    p.2 ∈ eggs ∧ (p.1 = Act.remove → hook = false ∧ find p.2 = true) := by
  have h := mem_install_actions hook find force forceall eggs p hp
  exact ⟨List.Sublist.mem h.1 (planEggs_sublist find force forceall eggs), h.2⟩

/-- Witness for C1 on a concrete reinstall plan containing a remove. -/
theorem C1_remove_tuples_witness :
    (Act.remove, "a-1.0-1.egg").2 ∈ ["a-1.0-1.egg"] ∧
    ((Act.remove, "a-1.0-1.egg").1 = Act.remove →
      false = false ∧
        (fun e : String => e == "a-1.0-1.egg") (Act.remove, "a-1.0-1.egg").2 = true) :=
  C1_remove_tuples false (fun e => e == "a-1.0-1.egg") false true
    ["a-1.0-1.egg"] (Act.remove, "a-1.0-1.egg") (by decide)

/-! ### enpkg.py: create_joined_store (lines 16-27)

For each URL the loop builds a `LocalIndexedStore(url[7:])` for
`file://` URLs, a `RemoteHTTPIndexedStore(url)` for `http://`/`https://`
URLs, a `LocalIndexedStore(url)` for bare paths that are existing
directories, and otherwise raises, aborting the whole call.  The
filesystem's `isdir` is a parameter.
-/

/-- Store variant created for one URL. -/
inductive Store
  | localIndexed (dir : String)
  | remoteHTTP (url : String)
deriving DecidableEq

/-- Python `s.startswith(p)`. -/
def str_startswith (s p : String) : Bool :=
  p.data.isPrefixOf s.data

/-- Python `url[7:]`. -/
def drop7 (s : String) : String :=
  ⟨s.data.drop 7⟩

/-- One iteration of the `create_joined_store` loop. -/
def createStore (isdir : String → Bool) (url : String) : Except String Store :=
  if str_startswith url "file://" then .ok (.localIndexed (drop7 url))
  else if str_startswith url "http://" || str_startswith url "https://" then
    .ok (.remoteHTTP url)
  else if isdir url then .ok (.localIndexed url)
  else .error url

/-- Embedding of `create_joined_store`: the ordered child stores of the
resulting `JoinedStore`, or the offending URL when the loop raises. -/
def create_joined_store (isdir : String → Bool) :
    List String → Except String (List Store)
  | [] => .ok []
  | url :: rest =>
    match createStore isdir url with
    | .error e => .error e
    | .ok s =>
      match create_joined_store isdir rest with
      | .error e => .error e
      | .ok stores => .ok (s :: stores)

/-! ### Claim C5 -/

/-- Claim C5, counterexample: the sentinel `local:` is not handled by
`create_joined_store`; it matches none of the accepted prefixes and is
not a directory, so the call raises instead of denoting the in-prefix
cache. -/
theorem C5_local_counterexample :
    create_joined_store (fun _ => false) ["local:"] = .error "local:" := by
  rfl

/-- Claim C5, amended: `create_joined_store` accepts `file://` URLs
(local indexed store on the path after the scheme), `http://` and
`https://` URLs (remote HTTP indexed store) and bare paths naming
existing directories (local indexed store on the path), and it raises
exactly on a URL of none of these three forms — including the legacy
sentinel `local:`, which belongs to `dist_naming`'s repo-string syntax
and is not recognized here. -/
theorem C5_url_schemes (isdir : String → Bool) :
    (∀ url, str_startswith url "file://" = true →
      createStore isdir url = .ok (.localIndexed (drop7 url))) ∧
    (∀ url, str_startswith url "file://" = false →
      (str_startswith url "http://" || str_startswith url "https://") = true →
      createStore isdir url = .ok (.remoteHTTP url)) ∧
    (∀ url, str_startswith url "file://" = false →
      (str_startswith url "http://" || str_startswith url "https://") = false →
      createStore isdir url
        = if isdir url then .ok (.localIndexed url) else .error url) ∧
    (∀ urls, (∃ stores, create_joined_store isdir urls = .ok stores) ↔
      ∀ url ∈ urls, (str_startswith url "file://" || str_startswith url "http://"
        || str_startswith url "https://" || isdir url) = true) := by
  have hone : ∀ url, (∃ s, createStore isdir url = .ok s) ↔
      (str_startswith url "file://" || str_startswith url "http://"
        || str_startswith url "https://" || isdir url) = true := by
    intro url
    rw [createStore]
    by_cases h1 : str_startswith url "file://" = true
    · simp [h1]
    · rw [if_neg h1]
      by_cases h2 : (str_startswith url "http://"
          || str_startswith url "https://") = true
      · rw [if_pos h2]
        simp only [Bool.or_eq_true] at h2 ⊢
        constructor
        · intro _
          tauto
        · intro _
          exact ⟨Store.remoteHTTP url, rfl⟩
      · rw [if_neg h2]
        simp only [Bool.or_eq_true, not_or] at h2
        by_cases h3 : isdir url = true
        · simp [h1, h2.1, h2.2, h3]
        · simp [h1, h2.1, h2.2, h3]
  refine ⟨?_, ?_, ?_, ?_⟩
  · intro url h1
    rw [createStore, if_pos h1]
  · intro url h1 h2
    rw [createStore, if_neg (by simp [h1]), if_pos h2]
  · intro url h1 h2
    rw [createStore, if_neg (by simp [h1]), if_neg (by simp [h2])]
  · intro urls
    induction urls with
    | nil => simp [create_joined_store]
    | cons url rest ih =>
      cases hc : createStore isdir url with
      | error e =>
        have hacc : ¬(str_startswith url "file://" || str_startswith url "http://"
            || str_startswith url "https://" || isdir url) = true := by
          intro hacc
          obtain ⟨s, hs⟩ := (hone url).mpr hacc
          rw [hc] at hs
          cases hs
        simp only [create_joined_store, hc]
        constructor
        · intro ⟨stores, hst⟩
          cases hst
        · intro hall
          exact absurd (hall url (by simp)) hacc
      | ok s =>
        have hacc : (str_startswith url "file://" || str_startswith url "http://"
            || str_startswith url "https://" || isdir url) = true :=
          (hone url).mp ⟨s, hc⟩
        simp only [create_joined_store, hc]
        cases hr : create_joined_store isdir rest with
        | error e =>
          rw [hr] at ih
          constructor
          · intro ⟨stores, hst⟩
            cases hst
          · intro hall
            obtain ⟨stores, hst⟩ := ih.mpr (fun u hu => hall u (by simp [hu]))
            cases hst
        | ok stores =>
          rw [hr] at ih
          have hred : (match (Except.ok stores : Except String (List Store)) with
              | Except.error e => (Except.error e : Except String (List Store))
              | Except.ok stores => Except.ok (s :: stores))
              = Except.ok (s :: stores) := rfl
          rw [hred]
          constructor
          · intro _ u hu
            rcases List.mem_cons.1 hu with rfl | hu
            · exact hacc
            · exact (ih.mp ⟨stores, rfl⟩) u hu
          · intro _
            exact ⟨s :: stores, rfl⟩

/-- Witness for C5 at concrete URLs of each scheme. -/
theorem C5_url_schemes_witness :
    createStore (fun _ => false) "file:///repo/"
      = .ok (.localIndexed (drop7 "file:///repo/")) ∧
    createStore (fun _ => false) "https://host/repo/"
      = .ok (.remoteHTTP "https://host/repo/") ∧
    createStore (fun _ => false) "local:"
      = (if (fun _ : String => false) "local:" then
          Except.ok (Store.localIndexed "local:") else Except.error "local:") ∧
    (∃ stores, create_joined_store (fun _ => false) ["https://host/repo/"]
      = .ok stores) := by
  have h := C5_url_schemes (fun _ => false)
  exact ⟨h.1 "file:///repo/" (by decide),
    h.2.1 "https://host/repo/" (by decide) (by decide),
    h.2.2.1 "local:" (by decide) (by decide),
    (h.2.2.2 ["https://host/repo/"]).mpr (by decide)⟩

/-! ### enpkg.py: Enpkg.remove_actions (lines 272-288)

The method asserts `req.name`, queries the primary collection
(`ec.collections[0].query(**req.as_dict())`), raises an `EnpkgError`
when nothing matches, asserts `self.hook` and raises an `EnpkgError`
listing the versions when more than one egg matches, and otherwise
returns `[('remove', key)]` for the unique match.  `Req` lives in
resolve.py and the collection query in eggcollect.py, both outside the
verified sources; they are modelled from the spec.
-/

/-- Modelled from the spec: a requirement `"name [version [build]]"`
(resolve.py `Req` is missing from the sources); the strictness level is
the number of present fields. -/
structure Req where
  name : String
  version : Option String
  build : Option Nat
deriving DecidableEq

/-- Metadata fields of an installed egg relevant to requirement
matching. -/
structure EggInfo where
  name : String
  version : String
  build : Nat
deriving DecidableEq

/-- ASCII-lowercase canonicalization of a package name. -/
def lowerStr (s : String) : String :=
  ⟨s.data.map Char.toLower⟩

/-- Modelled from the spec: a requirement matches a metadata record iff
the canonical names agree and every present field equals the
record's. -/
def reqMatches (r : Req) (i : EggInfo) : Bool :=
  lowerStr r.name == lowerStr i.name
    && (match r.version with | none => true | some v => v == i.version)
    && (match r.build with | none => true | some b => b == i.build)

/-- Error outcomes of `Enpkg.remove_actions`: a failed `assert`, the
not-installed `EnpkgError`, or the installed-more-than-once
`EnpkgError`. -/
inductive RemoveErr
  | assertionFailed
  | notInstalled
  | ambiguous
deriving DecidableEq

/-- Embedding of `Enpkg.remove_actions` over the primary collection's
installed `(key, metadata)` pairs; its `query(**req.as_dict())` is
modelled from the spec as filtering by requirement match. -/
def remove_actions (hook : Bool) (primary : List (String × EggInfo))
    (req : Req) : Except RemoveErr (List (Act × String)) :=
  if req.name = "" then .error .assertionFailed
  else
    match primary.filter (fun p => reqMatches req p.2) with
    | [] => .error .notInstalled
    | [p] => .ok [(Act.remove, p.1)]
    | _ :: _ :: _ =>
      if hook then .error .ambiguous else .error .assertionFailed

/-! ### Claim C6 -/

/-- Claim C6: for a requirement with a name, `remove_actions` fails with
the not-installed error when no installed egg of the primary collection
matches; fails with the `Ambiguous` error when two or more match (a
state only reachable in hook mode — in plain mode the guarding
`assert self.hook` fails instead); and returns exactly the one-element
plan `[('remove', key)]` when exactly one egg matches. -/
theorem C6_remove_actions (hook : Bool) (primary : List (String × EggInfo))
    (req : Req) (hname : req.name ≠ "") :
    (primary.filter (fun p => reqMatches req p.2) = [] →
      remove_actions hook primary req = .error .notInstalled) ∧
    (2 ≤ (primary.filter (fun p => reqMatches req p.2)).length → hook = true →
      remove_actions hook primary req = .error .ambiguous) ∧
    (2 ≤ (primary.filter (fun p => reqMatches req p.2)).length → hook = false →
      remove_actions hook primary req = .error .assertionFailed) ∧
    (∀ p, primary.filter (fun p => reqMatches req p.2) = [p] →
      remove_actions hook primary req = .ok [(Act.remove, p.1)]) := by
  refine ⟨?_, ?_, ?_, ?_⟩
  · intro hfil
    rw [remove_actions, if_neg hname, hfil]
  · intro hlen hhook
    rcases hfil : primary.filter (fun p => reqMatches req p.2) with - | ⟨p, - | ⟨q, t⟩⟩
    · rw [hfil] at hlen; simp at hlen
    · rw [hfil] at hlen; simp at hlen
    · rw [remove_actions, if_neg hname, hfil, if_pos hhook]
  · intro hlen hhook
    rcases hfil : primary.filter (fun p => reqMatches req p.2) with - | ⟨p, - | ⟨q, t⟩⟩
    · rw [hfil] at hlen; simp at hlen
    · rw [hfil] at hlen; simp at hlen
    · rw [remove_actions, if_neg hname, hfil, if_neg (by simp [hhook])]
  · intro p hfil
    rw [remove_actions, if_neg hname, hfil]

/-- Witness for C6: a one-prefix collection holding exactly one egg named
foo, removed by the bare requirement `foo`. -/
theorem C6_remove_actions_witness :
    remove_actions false [("foo-1.0.0-1.egg", ⟨"foo", "1.0.0", 1⟩)]
      ⟨"foo", none, none⟩
      = .ok [(Act.remove, "foo-1.0.0-1.egg")] :=
  (C6_remove_actions false [("foo-1.0.0-1.egg", ⟨"foo", "1.0.0", 1⟩)]
      ⟨"foo", none, none⟩ (by decide)).2.2.2
    ("foo-1.0.0-1.egg", ⟨"foo", "1.0.0", 1⟩) (by decide)

/-! ### enpkg.py: Enpkg.execute_actions (lines 173-224)

The executor walks the plan: `fetch` calls `self.fetch(egg)`, `remove`
calls `self.ec.remove(egg)` inside `try/except EnpkgError: pass`,
`install` fetches metadata and calls `self.ec.install(...)`, and any
other label raises.  `fetchFail`/`installFail` model the fallible
external effects (`FetchAPI.fetch_egg`, `remote.get_metadata` plus
`ec.install`).  `ec.remove` (eggcollect.py, outside the verified
sources) is modelled from the spec: it removes the egg from the primary
installed set and raises the `NotInstalled` `EnpkgError` when absent —
exactly the error the `except` clause swallows, so a remove step always
continues with the remaining actions.
-/

/-- Error outcomes of a plan execution. -/
inductive ExecErr
  | fetchFailed (egg : String)
  | installFailed (egg : String)
  | unknownAction (action : String)
deriving DecidableEq

/-- Embedding of `Enpkg.execute_actions`, folding the plan over the
primary collection's installed set. -/
def execute_actions (fetchFail installFail : String → Bool) :
    List String → List (String × String) → Except ExecErr (List String)
  | st, [] => .ok st
  | st, (action, egg) :: rest =>
    if action = "fetch" then
      if fetchFail egg then .error (.fetchFailed egg)
      else execute_actions fetchFail installFail st rest
    else if action = "remove" then
      execute_actions fetchFail installFail (st.erase egg) rest
    else if action = "install" then
      if installFail egg then .error (.installFailed egg)
      else execute_actions fetchFail installFail (st.insert egg) rest
    else .error (.unknownAction action)

/-! ### Claim C7 -/

/-- Claim C7: a `remove` step never aborts the plan — when its egg is not
installed the raised `EnpkgError` is swallowed and execution continues on
an unchanged state (in general it continues on the state with the egg
erased); a failing `fetch` or `install` step aborts with its error; any
other action label aborts with the unknown-action error. -/
theorem C7_executor_errors (ff fi : String → Bool) (st : List String)
    (rest : List (String × String)) :
    (∀ egg, egg ∉ st →
      execute_actions ff fi st (("remove", egg) :: rest)
        = execute_actions ff fi st rest) ∧
    (∀ egg, execute_actions ff fi st (("remove", egg) :: rest)
        = execute_actions ff fi (st.erase egg) rest) ∧
    (∀ egg, ff egg = true →
      execute_actions ff fi st (("fetch", egg) :: rest)
        = .error (.fetchFailed egg)) ∧
    (∀ egg, fi egg = true →
      execute_actions ff fi st (("install", egg) :: rest)
        = .error (.installFailed egg)) ∧
    (∀ action egg, action ≠ "fetch" → action ≠ "remove" → action ≠ "install" →
      execute_actions ff fi st ((action, egg) :: rest)
        = .error (.unknownAction action)) := by
  have hstep : ∀ (action egg : String),
      execute_actions ff fi st ((action, egg) :: rest)
      = if action = "fetch" then
          if ff egg then .error (.fetchFailed egg)
          else execute_actions ff fi st rest
        else if action = "remove" then
          execute_actions ff fi (st.erase egg) rest
        else if action = "install" then
          if fi egg then .error (.installFailed egg)
          else execute_actions ff fi (st.insert egg) rest
        else .error (.unknownAction action) := by
    intro action egg
    rw [execute_actions]
  refine ⟨?_, ?_, ?_, ?_, ?_⟩
  · intro egg hne
    rw [hstep, if_neg (by decide), if_pos rfl, List.erase_of_not_mem hne]
  · intro egg
    rw [hstep, if_neg (by decide), if_pos rfl]
  · intro egg hf
    rw [hstep, if_pos rfl, if_pos hf]
  · intro egg hf
    rw [hstep, if_neg (by decide), if_neg (by decide), if_pos rfl, if_pos hf]
  · intro action egg h1 h2 h3
    rw [hstep, if_neg h1, if_neg h2, if_neg h3]

/-- Witness for C7 on concrete failing and succeeding steps. -/
theorem C7_executor_errors_witness :
    (execute_actions (fun e => e == "bad.egg") (fun _ => false) ["x.egg"]
        [("remove", "y.egg")]
      = execute_actions (fun e => e == "bad.egg") (fun _ => false) ["x.egg"] []) ∧
    (execute_actions (fun e => e == "bad.egg") (fun _ => false) ["x.egg"]
        [("fetch", "bad.egg")]
      = .error (.fetchFailed "bad.egg")) ∧
    (execute_actions (fun e => e == "bad.egg") (fun _ => false) ["x.egg"]
        [("frobnicate", "x.egg")]
      = .error (.unknownAction "frobnicate")) := by
  have h := C7_executor_errors (fun e => e == "bad.egg") (fun _ => false)
    ["x.egg"] []
  exact ⟨h.1 "y.egg" (by decide), h.2.2.1 "bad.egg" (by decide),
    h.2.2.2.2 "frobnicate" "x.egg" (by decide) (by decide) (by decide)⟩

/-! ### main.py: revert (lines 195-242)

After resolving the revision, `revert` compares the target `state`
(`history.get_state(rev)`, a set of egg filenames) with the current
installed set `curr`; on equality it returns without acting.  Otherwise
it removes every egg of `curr - state`, then, for eggs of
`state - curr` whose file is missing from the cache (`isfile` false),
fetches those the chain can resolve (`chain.get_dist` not None —
unresolvable eggs are silently skipped), and finally installs each egg
of `state - curr` whose file is now present.  `cached` models the
initial `isfile` test and `chainHas` models `chain.get_dist`; a
performed fetch is modelled as succeeding (`dry_run` false), so the
file is present at install time iff it was cached or the chain has it.
-/

/-- Action labels a revert performs. -/
inductive RevertAct
  | remove
  | fetch
  | install
deriving DecidableEq

/-- Python set difference `xs - ys` on filename lists. -/
def diffList (xs ys : List String) : List String :=
  xs.filter (fun e => decide (e ∉ ys))

/-- Embedding of the acting part of `revert`: the performed
remove/fetch/install steps in order. -/
def revertActions (curr state : List String)
    (cached chainHas : String → Bool) : List (RevertAct × String) :=
  if (diffList curr state).isEmpty && (diffList state curr).isEmpty then []
  else
    (diffList curr state).map (fun e => (RevertAct.remove, e))
      ++ ((diffList state curr).filter
          (fun e => !cached e && chainHas e)).map (fun e => (RevertAct.fetch, e))
      ++ ((diffList state curr).filter
          (fun e => cached e || chainHas e)).map (fun e => (RevertAct.install, e))

/-- Rank of a revert step: removals first, then fetches, then installs. -/
def revRank : RevertAct → Nat
  | .remove => 0
  | .fetch => 1
  | .install => 2

theorem mem_diffList (xs ys : List String) (e : String) :
    e ∈ diffList xs ys ↔ e ∈ xs ∧ e ∉ ys := by
  simp [diffList, List.mem_filter]

/-! ### Claim C8 -/

/-- Claim C8, counterexample: an egg of `target - current` whose file is
neither in the local cache nor resolvable by the chain is silently
skipped: `revert` performs no action at all for it, so it does not
install exactly `target - current`. -/
theorem C8_revert_counterexample :
    diffList ["a-1.0-1.egg"] [] = ["a-1.0-1.egg"] ∧
    revertActions [] ["a-1.0-1.egg"] (fun _ => false) (fun _ => false) = [] ∧
    (RevertAct.install, "a-1.0-1.egg") ∉
      revertActions [] ["a-1.0-1.egg"] (fun _ => false) (fun _ => false) := by
  refine ⟨by decide, by decide, by decide⟩

/-- Claim C8, amended: `revert` removes exactly the eggs of
`current - target` and installs exactly those eggs of `target - current`
whose file is in the local cache or resolvable from the repository chain
(eggs available from neither are silently skipped); it fetches
beforehand exactly the to-install eggs absent from the cache that the
chain resolves; all removals precede all fetches, which precede all
installations; and when target and current are set-equal it performs no
action. -/
theorem C8_revert_diff (curr state : List String)
    (cached chainHas : String → Bool) :
    (∀ e, (RevertAct.remove, e) ∈ revertActions curr state cached chainHas ↔
      e ∈ curr ∧ e ∉ state) ∧
    (∀ e, (RevertAct.install, e) ∈ revertActions curr state cached chainHas ↔
      e ∈ state ∧ e ∉ curr ∧ (cached e = true ∨ chainHas e = true)) ∧
    (∀ e, (RevertAct.fetch, e) ∈ revertActions curr state cached chainHas ↔
      e ∈ state ∧ e ∉ curr ∧ cached e = false ∧ chainHas e = true) ∧
    ((revertActions curr state cached chainHas).Pairwise
      (fun p q => revRank p.1 ≤ revRank q.1)) ∧
    ((∀ e, e ∈ curr ↔ e ∈ state) → revertActions curr state cached chainHas = []) := by
  by_cases hcond : ((diffList curr state).isEmpty
      && (diffList state curr).isEmpty) = true
  · have hplan : revertActions curr state cached chainHas = [] := by
      rw [revertActions, if_pos hcond]
    simp only [Bool.and_eq_true, List.isEmpty_iff] at hcond
    obtain ⟨hA, hB⟩ := hcond
    refine ⟨?_, ?_, ?_, ?_, ?_⟩
    · intro e
      rw [hplan]
      simp only [List.not_mem_nil, false_iff]
      rintro ⟨h1, h2⟩
      have hin := (mem_diffList curr state e).2 ⟨h1, h2⟩
      rw [hA] at hin
      exact absurd hin (List.not_mem_nil _)
    · intro e
      rw [hplan]
      simp only [List.not_mem_nil, false_iff]
      rintro ⟨h1, h2, -⟩
      have hin := (mem_diffList state curr e).2 ⟨h1, h2⟩
      rw [hB] at hin
      exact absurd hin (List.not_mem_nil _)
    · intro e
      rw [hplan]
      simp only [List.not_mem_nil, false_iff]
      rintro ⟨h1, h2, -, -⟩
      have hin := (mem_diffList state curr e).2 ⟨h1, h2⟩
      rw [hB] at hin
      exact absurd hin (List.not_mem_nil _)
    · rw [hplan]
      exact List.Pairwise.nil
    · intro _
      exact hplan
  · have hplan : revertActions curr state cached chainHas
        = (diffList curr state).map (fun e => (RevertAct.remove, e))
          ++ ((diffList state curr).filter
              (fun e => !cached e && chainHas e)).map (fun e => (RevertAct.fetch, e))
          ++ ((diffList state curr).filter
              (fun e => cached e || chainHas e)).map (fun e => (RevertAct.install, e)) := by
      rw [revertActions, if_neg hcond]
    refine ⟨?_, ?_, ?_, ?_, ?_⟩
    · intro e
      rw [hplan]
      simp [List.mem_append, List.mem_map, List.mem_filter, mem_diffList]
    · intro e
      rw [hplan]
      simp [List.mem_append, List.mem_map, List.mem_filter, mem_diffList]
      tauto
    · intro e
      rw [hplan]
      simp [List.mem_append, List.mem_map, List.mem_filter, mem_diffList]
      tauto
    · rw [hplan]
      rw [List.pairwise_append]
      refine ⟨?_, ?_, ?_⟩
      · rw [List.pairwise_append]
        refine ⟨?_, ?_, ?_⟩
        · rw [List.pairwise_map]
          exact pairwiseOfForall (fun a b => by simp [revRank]) _
        · rw [List.pairwise_map]
          exact pairwiseOfForall (fun a b => by simp [revRank]) _
        · intro p hp q hq
          simp only [List.mem_map] at hp
          obtain ⟨x, -, rfl⟩ := hp
          exact Nat.zero_le _
      · rw [List.pairwise_map]
        exact pairwiseOfForall (fun a b => by simp [revRank]) _
      · intro p hp q hq
        simp only [List.mem_map] at hq
        obtain ⟨y, -, rfl⟩ := hq
        rcases List.mem_append.1 hp with hp | hp
        · simp only [List.mem_map] at hp
          obtain ⟨x, -, rfl⟩ := hp
          exact Nat.zero_le _
        · simp only [List.mem_map] at hp
          obtain ⟨x, -, rfl⟩ := hp
          simp [revRank]
    · intro hset
      have hA : diffList curr state = [] := by
        rw [diffList, List.filter_eq_nil_iff]
        intro a ha
        simp [(hset a).1 ha]
      have hB : diffList state curr = [] := by
        rw [diffList, List.filter_eq_nil_iff]
        intro a ha
        simp [(hset a).2 ha]
      rw [revertActions, hA, hB]
      simp

/-- Witness for C8 on a concrete one-step downgrade and a no-op. -/
theorem C8_revert_diff_witness :
    ((RevertAct.remove, "old-1.0-1.egg") ∈
        revertActions ["old-1.0-1.egg"] ["new-1.0-1.egg"]
          (fun _ => true) (fun _ => true) ↔
      "old-1.0-1.egg" ∈ ["old-1.0-1.egg"] ∧
        "old-1.0-1.egg" ∉ ["new-1.0-1.egg"]) ∧
    revertActions ["x-1.0-1.egg"] ["x-1.0-1.egg"]
      (fun _ => false) (fun _ => false) = [] :=
  ⟨(C8_revert_diff ["old-1.0-1.egg"] ["new-1.0-1.egg"]
      (fun _ => true) (fun _ => true)).1 "old-1.0-1.egg",
    (C8_revert_diff ["x-1.0-1.egg"] ["x-1.0-1.egg"]
      (fun _ => false) (fun _ => false)).2.2.2.2 (fun _ => Iff.rfl)⟩

/-! ### metadata.py: parse_data (lines 86-109)

`parse_data` executes the section body (`exec data in spec`) — a sequence
of `key = literal` assignments — then asserts
`spec['metadata_version'] >= '1.1'` and, when `index` is true, that
`spec['md5']` is a 32-character string and `spec['size']` an integer,
and finally copies exactly the expected variable names into the result
(a missing one raises `KeyError`).  The executed body is modelled as the
association list of the assignments it performs, in order (a later
assignment to the same name shadows an earlier one); the literals a
section assigns are strings, integers, `None` and lists of strings.
-/

/-- Literal values an index section assigns. -/
inductive Value
  | str (s : String)
  | int (z : Int)
  | nil
  | list (xs : List String)
deriving DecidableEq

/-- Python variable lookup after executing the assignments in order:
the last assignment to a name wins. -/
def getVar (spec : List (String × Value)) (n : String) : Option Value :=
  (spec.reverse.find? (fun p => p.1 == n)).map Prod.snd

/-- The variable names `parse_data` always copies into its result. -/
def baseVarNames : List String :=
  ["metadata_version", "name", "version", "build",
   "arch", "platform", "osdist", "python", "packages"]

/-- Lexicographic (byte-wise, for ASCII) comparison of Python 2
strings. -/
def charsLt : List Char → List Char → Bool
  | [], [] => false
  | [], _ :: _ => true
  | _ :: _, [] => false
  | a :: as, b :: bs =>
    if a < b then true
    else if b < a then false
    else charsLt as bs

/-- Python 2 evaluation of `spec['metadata_version'] >= '1.1'`: between
two strings the comparison is lexicographic on bytes; for the non-string
literals a section can hold (int, `None`, list) the cross-type ordering
of CPython 2 makes the comparison False; a missing key raises first. -/
def metadataVersionOk (v : Option Value) : Bool :=
  match v with
  | some (.str s) => !charsLt s.data "1.1".data
  | _ => false

/-- The copying loop `for name in var_names: res[name] = spec[name]`,
failing with the name of a missing key. -/
def collectVars (spec : List (String × Value)) :
    List String → Except String (List (String × Value))
  | [] => .ok []
  | n :: rest =>
    match getVar spec n with
    | none => .error n
    | some v =>
      match collectVars spec rest with
      | .error e => .error e
      | .ok xs => .ok ((n, v) :: xs)

/-- Embedding of `parse_data`: the error carries the offending key. -/
def parse_data (spec : List (String × Value)) (index : Bool) :
    Except String (List (String × Value)) :=
  if !metadataVersionOk (getVar spec "metadata_version") then
    .error "metadata_version"
  else if index && !(match getVar spec "md5" with
      | some (.str m) => m.length == 32
      | _ => false) then .error "md5"
  else if index && !(match getVar spec "size" with
      | some (.int _) => true
      | _ => false) then .error "size"
  else
    collectVars spec (baseVarNames ++ if index then ["md5", "size"] else [])

theorem collectVars_ok (spec : List (String × Value)) :
    ∀ (names : List String) (res : List (String × Value)),
      collectVars spec names = .ok res →
      res.map Prod.fst = names ∧ ∀ k v, (k, v) ∈ res → getVar spec k = some v := by
  intro names
  induction names with
  | nil =>
    intro res h
    cases h
    exact ⟨rfl, fun k v hm => absurd hm (List.not_mem_nil _)⟩
  | cons n rest ih =>
    intro res h
    rw [collectVars] at h
    cases hv : getVar spec n with
    | none => rw [hv] at h; cases h
    | some v =>
      rw [hv] at h
      cases hr : collectVars spec rest with
      | error e => rw [hr] at h; cases h
      | ok xs =>
        rw [hr] at h
        cases h
        obtain ⟨h1, h2⟩ := ih xs hr
        refine ⟨by simp [h1], ?_⟩
        intro k w hm
        rcases List.mem_cons.1 hm with heq | hm
        · cases heq; exact hv
        · exact h2 k w hm

/-! ### Claim C9 -/

/-- Claim C9: when `parse_data(data, index=True)` succeeds, the section
defined an `md5` that is a 32-character string and an integer `size`,
and the result contains exactly the keys `metadata_version, name,
version, build, arch, platform, osdist, python, packages, md5, size`,
each bound to the section's value; any other key assigned in the section
is absent from the result. -/
theorem C9_parse_data (spec res : List (String × Value)) :
    parse_data spec true = .ok res →
    (∃ m, getVar spec "md5" = some (.str m) ∧ m.length = 32) ∧
    (∃ z, getVar spec "size" = some (.int z)) ∧
    res.map Prod.fst = baseVarNames ++ ["md5", "size"] ∧
    (∀ k, k ∉ baseVarNames ++ ["md5", "size"] →
      res.find? (fun p => p.1 == k) = none) ∧
    (∀ k v, (k, v) ∈ res → getVar spec k = some v) := by
  intro h
  rw [parse_data] at h
  by_cases h1 : (!metadataVersionOk (getVar spec "metadata_version")) = true
  · rw [if_pos h1] at h; cases h
  rw [if_neg h1] at h
  by_cases h2 : (true && !(match getVar spec "md5" with
      | some (.str m) => m.length == 32
      | _ => false)) = true
  · rw [if_pos h2] at h; cases h
  rw [if_neg h2] at h
  by_cases h3 : (true && !(match getVar spec "size" with
      | some (.int _) => true
      | _ => false)) = true
  · rw [if_pos h3] at h; cases h
  rw [if_neg h3] at h
  simp only [Bool.true_and, Bool.not_eq_true', Bool.not_eq_false] at h2 h3
  obtain ⟨hkeys, hvals⟩ := collectVars_ok spec _ res h
  refine ⟨?_, ?_, hkeys, ?_, hvals⟩
  · rcases hv : getVar spec "md5" with - | v
    · rw [hv] at h2; cases h2
    · cases v with
      | str m =>
        rw [hv] at h2
        exact ⟨m, rfl, by simpa using h2⟩
      | int z => rw [hv] at h2; cases h2
      | nil => rw [hv] at h2; cases h2
      | list xs => rw [hv] at h2; cases h2
  · rcases hv : getVar spec "size" with - | v
    · rw [hv] at h3; cases h3
    · cases v with
      | str m => rw [hv] at h3; cases h3
      | int z => exact ⟨z, rfl⟩
      | nil => rw [hv] at h3; cases h3
      | list xs => rw [hv] at h3; cases h3
  · intro k hk
    rw [List.find?_eq_none]
    intro p hp
    have : p.1 ∈ res.map Prod.fst := List.mem_map_of_mem _ hp
    rw [hkeys] at this
    simp only [beq_iff_eq]
    intro heq
    rw [heq] at this
    exact hk this

/-- One well-formed index section with an extra unknown key. -/
def sampleSection : List (String × Value) :=
  [("metadata_version", .str "1.1"), ("name", .str "foo"),
   ("version", .str "1.0"), ("build", .int 1),
   ("arch", .nil), ("platform", .nil), ("osdist", .nil),
   ("python", .str "2.7"), ("packages", .list []),
   ("md5", .str "d41d8cd98f00b204e9800998ecf8427e"), ("size", .int 1024),
   ("unknown_key", .str "ignored")]

/-- The record `parse_data` extracts from `sampleSection`. -/
def sampleRecord : List (String × Value) :=
  [("metadata_version", .str "1.1"), ("name", .str "foo"),
   ("version", .str "1.0"), ("build", .int 1),
   ("arch", .nil), ("platform", .nil), ("osdist", .nil),
   ("python", .str "2.7"), ("packages", .list []),
   ("md5", .str "d41d8cd98f00b204e9800998ecf8427e"), ("size", .int 1024)]

/-- Witness for C9 on the sample section. -/
theorem C9_parse_data_witness :
    (∃ m, getVar sampleSection "md5" = some (.str m) ∧ m.length = 32) ∧
    (∃ z, getVar sampleSection "size" = some (.int z)) ∧
    sampleRecord.map Prod.fst = baseVarNames ++ ["md5", "size"] ∧
    (∀ k, k ∉ baseVarNames ++ ["md5", "size"] →
      sampleRecord.find? (fun p => p.1 == k) = none) ∧
    (∀ k v, (k, v) ∈ sampleRecord → getVar sampleSection k = some v) :=
  C9_parse_data sampleSection sampleRecord (by rfl)

/-! ### proxy/util.py: get_proxystr, get_proxy_info, setup_proxy

`setup_proxy('')` (the default call of main.py) passes the empty string,
so `get_proxy_info` takes its environment-variable branch
(`len(proxystr) < 1`), reading `PROXY_HOST`, `PROXY_PORT`, `PROXY_USER`
and `PROXY_PASS` (`env` models `os.environ.get`; `promptPass` models
`getpass.getpass()`).  `get_proxystr` assigns its local `proxystr` only
under `host is not None and len(host) > 0`; the fall-through
`return proxystr` then raises `UnboundLocalError`, modelled as `none`.
The explicit-proxy-string branch parses with `urllib2._parse_proxy`
(standard library, external) and is not modelled.
-/

/-- Proxy information dictionary built by `get_proxy_info`; the port is
kept in its formatted form (`'%(port)s'` accepts int and str alike). -/
structure ProxyInfo where
  host : Option String
  port : String
  user : Option String
  passwd : Option String
deriving DecidableEq

/-- Embedding of `get_proxystr`: `none` models reaching
`return proxystr` with the local variable never assigned
(`UnboundLocalError`); `'%(pass)s'` renders a missing password as the
string `None`. -/
def get_proxystr (pinfo : ProxyInfo) : Option String :=
  match pinfo.host with
  | some host =>
    if host.length > 0 then
      some (match pinfo.user with
        | some user =>
          if user.length > 0 then
            user ++ ":" ++ pinfo.passwd.getD "None" ++ "@" ++ host ++ ":" ++ pinfo.port
          else host ++ ":" ++ pinfo.port
        | none => host ++ ":" ++ pinfo.port)
    else none
  | none => none

/-- Embedding of `install_proxy_handlers`: the `UnboundLocalError` of
`get_proxystr` propagates; otherwise the opener is installed iff the
proxy string is truthy (non-empty). -/
def install_proxy_handlers (pinfo : ProxyInfo) : Option Bool :=
  (get_proxystr pinfo).map (fun s => !s.isEmpty)

/-- Embedding of the environment branch of `get_proxy_info` (taken when
the proxy string is `None` or shorter than one character): the raw
environment values, with the password prompted for when a non-empty user
has no (or an empty) password. -/
def get_proxy_info_env (env : String → Option String)
    (promptPass : String) : ProxyInfo :=
  { host := env "PROXY_HOST"
    port := (env "PROXY_PORT").getD "80"
    user := env "PROXY_USER"
    passwd :=
      match env "PROXY_USER" with
      | some user =>
        if user.length > 0 then
          match env "PROXY_PASS" with
          | none => some promptPass
          | some p => if p.length < 1 then some promptPass else some p
        else env "PROXY_PASS"
      | none => env "PROXY_PASS" }

/-- Embedding of `setup_proxy('')`: the handlers are installed whenever
`info.get('host') is not None` — also when the host is the empty string —
and `installed = True` is returned; `none` models the crash. -/
def setup_proxy_noarg (env : String → Option String)
    (promptPass : String) : Option Bool :=
  match (get_proxy_info_env env promptPass).host with
  | some _ => (install_proxy_handlers (get_proxy_info_env env promptPass)).map
      (fun _ => true)
  | none => some false

/-! ### Claim C10 -/

/-- Claim C10: with `PROXY_HOST` set to the empty string and no explicit
proxy string, `get_proxy_info` returns a host that is the empty string
(not `None`), so `setup_proxy` calls `install_proxy_handlers`, whose
`get_proxystr` skips the only assignment to its result variable and
crashes with `UnboundLocalError` at `return proxystr`. -/
theorem C10_empty_proxy_host (env : String → Option String)
    (promptPass : String) (henv : env "PROXY_HOST" = some "") :
    (get_proxy_info_env env promptPass).host = some "" ∧
    get_proxystr (get_proxy_info_env env promptPass) = none ∧
    install_proxy_handlers (get_proxy_info_env env promptPass) = none ∧
    setup_proxy_noarg env promptPass = none := by
  have hhost : (get_proxy_info_env env promptPass).host = some "" := by
    rw [get_proxy_info_env, henv]
  have hstr : get_proxystr (get_proxy_info_env env promptPass) = none := by
    rw [get_proxystr, hhost]
    rfl
  have hinst : install_proxy_handlers (get_proxy_info_env env promptPass) = none := by
    rw [install_proxy_handlers, hstr]
    rfl
  refine ⟨hhost, hstr, hinst, ?_⟩
  rw [setup_proxy_noarg, hhost, hinst]
  rfl

/-- Witness for C10 in an environment where only `PROXY_HOST` is set,
to the empty string. -/
theorem C10_empty_proxy_host_witness :
    (get_proxy_info_env
        (fun k => if k == "PROXY_HOST" then some "" else none) "pw").host
      = some "" ∧
    get_proxystr (get_proxy_info_env
        (fun k => if k == "PROXY_HOST" then some "" else none) "pw") = none ∧
    install_proxy_handlers (get_proxy_info_env
        (fun k => if k == "PROXY_HOST" then some "" else none) "pw") = none ∧
    setup_proxy_noarg
        (fun k => if k == "PROXY_HOST" then some "" else none) "pw" = none :=
  C10_empty_proxy_host
    (fun k => if k == "PROXY_HOST" then some "" else none) "pw" (by rfl)

end Enstaller
